import Mathlib

/-!
Verification of the chanarch archiver (`src/chanarch.py`) against its
natural-language specification.

The Python source is shallowly embedded: each relevant Python function is
translated into an executable Lean definition over explicit data.  Network
and filesystem effects are made explicit:

* the local file is a `List Nat` of bytes;
* HTTP traffic of `Downloader.download` is modelled by a request trace
  (`Request`) plus a server behaviour function mapping each GET attempt
  (attempt index, range offset) to a `GetOutcome`;
* the link file of `scrape_links` is a list of lines.

Python-level exceptions are modelled with `Except`.
-/

section URLParsing

/-- `InvalidURLError(url, urldesc)` from chanarch.py (lines 50-77):
carries the offending URL and an optional description of the expected
format. -/
structure InvalidURLError where
  url : String
  urldesc : Option String
deriving DecidableEq, Repr

/-- Match a literal character sequence at the head of the input, returning
the remainder on success (the building block used to embed the fixed parts
of the regular expressions of chanarch.py). -/
def dropLit : List Char → List Char → Option (List Char)
  | [], rest => some rest
  | _ :: _, [] => none
  | p :: ps, c :: cs => if p = c then dropLit ps cs else none

/-- The tail of `ChanThread.parse_url`'s regex
`http(s?)://boards\.4chan\.org/([^/]+)/thread/([0-9]+)` after the scheme
and host: group 2 is the maximal run of non-`/` characters (which must be
non-empty), then the literal `/thread/`, then group 3 is the maximal run of
digits (non-empty).  Backtracking cannot produce any other decomposition
because `[^/]+` cannot contain `/` and `/thread/` starts with `/`. -/
def finishMatch (sec : Bool) (r : List Char) : Option (Bool × String × String) :=
  let board := r.takeWhile (fun c => c != '/')
  let r2 := r.dropWhile (fun c => c != '/')
  if board.isEmpty then none
  else
    match dropLit "/thread/".data r2 with
    | none => none
    | some r3 =>
      let digits := r3.takeWhile Char.isDigit
      if digits.isEmpty then none else some (sec, board.asString, digits.asString)

/-- One match attempt of `parse_url`'s regex at a fixed position.  The
alternation `http(s?)` is deterministic here: after `http` the characters
`s` and `:` are distinct, so at most one of the two scheme branches can
succeed. -/
def matchAt (cs : List Char) : Option (Bool × String × String) :=
  match dropLit "https://boards.4chan.org/".data cs with
  | some r => finishMatch true r
  | none =>
    match dropLit "http://boards.4chan.org/".data cs with
    | some r => finishMatch false r
    | none => none

/-- `re.search` semantics: try the pattern at every position, left to
right, and return the first match. -/
def searchThread : List Char → Option (Bool × String × String)
  | [] => none
  | c :: cs =>
    match matchAt (c :: cs) with
    | some r => some r
    | none => searchThread cs

/-- `ChanThread.parse_url` (chanarch.py lines 181-219): `re.search` the
thread-URL regex; on failure raise `InvalidURLError(threadurl, '4chan
thread URL')`; on success return `(usehttps, board, threadnum)` where
`usehttps` is true iff group 1 is `s`. -/
def parse_url (threadurl : String) : Except InvalidURLError (Bool × String × String) :=
  match searchThread threadurl.data with
  | some r => .ok r
  | none => .error ⟨threadurl, some "4chan thread URL"⟩

/-- A thread URL built from its components, exactly in the shape of the
spec's grammar `scheme://boards.<site>/<board>/thread/<numericId>` with the
site this program targets. -/
def mkThreadURL (sec : Bool) (board tid : String) : String :=
  (if sec then "https" else "http") ++ "://boards.4chan.org/" ++ board ++ "/thread/" ++ tid

/-- Modelled from the spec's words (section 4.1 / claim C5), for comparison
with `parse_url`: a parser demanding that the WHOLE string match the
grammar `scheme://boards.<site>/<board>/thread/<numericId>` (site as
deployed: `4chan.org`; scheme `http` or `https`, flag true iff `https`).
The scheme is a maximal run of ASCII letters starting the string, and the
string must end right after the numeric id. -/
def specThreadURLParse (s : String) : Option (Bool × String × String) :=
  let cs := s.data
  let isLetter : Char → Bool := fun c =>
    (decide ('A' ≤ c) && decide (c ≤ 'Z')) || (decide ('a' ≤ c) && decide (c ≤ 'z'))
  let scheme := cs.takeWhile isLetter
  let r1 := cs.dropWhile isLetter
  match dropLit "://boards.4chan.org/".data r1 with
  | none => none
  | some r2 =>
    let board := r2.takeWhile (fun c => c != '/')
    let r3 := r2.dropWhile (fun c => c != '/')
    if board.isEmpty then none
    else
      match dropLit "/thread/".data r3 with
      | none => none
      | some r4 =>
        let digits := r4.takeWhile Char.isDigit
        let r5 := r4.dropWhile Char.isDigit
        if digits.isEmpty || !r5.isEmpty then none
        else if scheme = "https".data then some (true, board.asString, digits.asString)
        else if scheme = "http".data then some (false, board.asString, digits.asString)
        else none

end URLParsing

section ThreadModel

/-- One post of the thread JSON, with the optional fields `download_files`
and `scrape_links` read (chanarch.py lines 282-292, 333-348).  The Python
values are `tim` (numeric timestamp id), `ext` (extension string with
leading dot), `filedeleted` (integer flag, `1` means deleted), `com`
(HTML-fragment comment body). -/
structure Post where
  tim : Option Nat
  ext : Option String
  filedeleted : Option Nat
  com : Option String
deriving DecidableEq, Repr

/-- The parsed thread JSON (`self.threadinfo`): a dictionary with a
`posts` array. -/
structure ThreadInfo where
  posts : List Post
deriving DecidableEq, Repr

/-- The mutable state of a `ChanThread` object (chanarch.py lines 79-124)
after construction: `thread_is_dead` and `threadinfo` both start as
Python `None` (here `none`); `update_info` is what later sets them. -/
structure ThreadSt where
  board : String
  threadid : String
  usehttps : Bool
  downdir : String
  thread_is_dead : Option Bool
  threadinfo : Option ThreadInfo
deriving DecidableEq, Repr

/-- Python exceptions that the embedded operations can raise. -/
inductive PyError where
  /-- `TypeError`, e.g. from subscripting `None` (`self.threadinfo['posts']`). -/
  | typeError
  /-- `json.loads` failure on a body that is not valid JSON. -/
  | jsonDecodeError
deriving DecidableEq, Repr

/-- The body of an HTTP response to the thread-JSON request, as seen by
`json.loads`: either it decodes to a thread dictionary or it raises. -/
inductive JSONBody where
  | valid (info : ThreadInfo)
  | invalid
deriving DecidableEq, Repr

/-- An HTTP response for `update_info`: status plus body. -/
structure HTTPResp where
  status : Nat
  body : JSONBody
deriving DecidableEq, Repr

/-- `ChanThread.update_info` (chanarch.py lines 221-258) with the network
round trip abstracted into the `resp` argument.  On a 404 it sets
`thread_is_dead = True` and returns; on EVERY other status it reads the
body and runs `json.loads` on it — the status is never checked again, so a
non-404 error response with a JSON body is silently accepted and a non-JSON
body raises a JSON decode error. -/
def update_info (t : ThreadSt) (resp : HTTPResp) : Except PyError ThreadSt :=
  if resp.status = 404 then .ok { t with thread_is_dead := some true }
  else
    match resp.body with
    | .valid info => .ok { t with threadinfo := some info }
    | .invalid => .error .jsonDecodeError

/-- The hard-coded image server of `download_files` (chanarch.py line 277). -/
def imgserver : String := "i.4cdn.org"

/-- Observable events of the download phase: construction of a `Downloader`
(hence a fresh connection object), a `down.download(url, filepath)` call,
and `down.close()`. -/
inductive DEvent where
  | newDownloader (server : String) (secure : Bool)
  | dl (servpath : String) (filepath : String)
  | closeConn
deriving DecidableEq, Repr

/-- Python `str(tim)` where `tim` may be `None`. -/
def pyOptStr : Option Nat → String
  | some n => toString n
  | none => "None"

/-- The per-post body of the loop in `download_files` (chanarch.py lines
282-295): a post yields a download iff `ext` is not `None` and
`filedeleted != 1`. -/
def postEvent (t : ThreadSt) (p : Post) : Option DEvent :=
  match p.ext with
  | none => none
  | some ext =>
    if p.filedeleted = some 1 then none
    else
      let filename := pyOptStr p.tim ++ ext
      some (.dl ("/" ++ t.board ++ "/" ++ filename) (t.downdir ++ "/" ++ filename))

/-- `ChanThread.download_files` (chanarch.py lines 260-298) as its event
trace.  A dead thread is skipped; a thread whose `threadinfo` is still
`None` raises `TypeError` on `self.threadinfo['posts']`; otherwise a NEW
`Downloader` is constructed (line 279), used for every file of this
thread, and closed at the end (line 298). -/
def download_files (t : ThreadSt) : Except PyError (List DEvent) :=
  if t.thread_is_dead.getD false then .ok []
  else
    match t.threadinfo with
    | none => .error .typeError
    | some info =>
      .ok (.newDownloader imgserver t.usehttps ::
        (info.posts.filterMap (postEvent t) ++ [.closeConn]))

/-- The download phase of the main loop (chanarch.py lines 627-640):
threads are processed strictly one at a time, each via its own
`download_files` call. -/
def runThreads : List ThreadSt → Except PyError (List DEvent)
  | [] => .ok []
  | t :: ts =>
    match download_files t with
    | .error e => .error e
    | .ok evs =>
      match runThreads ts with
      | .error e => .error e
      | .ok rest => .ok (evs ++ rest)

/-- Number of `Downloader` constructions in an event trace. -/
def countNew (evs : List DEvent) : Nat :=
  evs.countP fun e =>
    match e with
    | .newDownloader _ _ => true
    | _ => false

end ThreadModel

section DownloaderModel

/-- Network errors that can interrupt the streaming loop of
`Downloader.download` (chanarch.py lines 490-520).  Only
`ssl.SSLError('The read operation timed out')` is caught by the code;
any other `ssl.SSLError` is re-raised, and a `socket.timeout` on a plain
HTTP connection is not caught at all. -/
inductive NetError where
  /-- `ssl.SSLError` whose `args[0]` is `'The read operation timed out'`. -/
  | sslReadTimeout
  /-- any other `ssl.SSLError`. -/
  | sslOther
  /-- `socket.timeout` raised by a read on a plain `HTTPConnection`. -/
  | socketTimeout
deriving DecidableEq, Repr

/-- Outcome of one GET attempt of the download loop: the response status
line (which the code never inspects), the bytes that `resp.read` delivers
before the stream ends or an error is raised, and that error, if any. -/
structure GetOutcome where
  status : Nat
  body : List Nat
  err : Option NetError
deriving DecidableEq, Repr

/-- Requests that `Downloader.download` puts on the wire: the initial
`HEAD` size probe (line 465) and each ranged `GET` with its
`Range: bytes=<ofs>-` start offset (lines 493-496). -/
inductive Request where
  | head (servpath : String)
  | get (servpath : String) (rangeStart : Nat)
deriving DecidableEq, Repr

/-- Result of a `Downloader.download` call: the final local file bytes,
whether the code closed `outfile` on that exit path, and the request
trace.  `outOfFuel` marks runs whose retry loop exceeded the modelling
fuel (the Python loop has no iteration bound). -/
inductive DLResult where
  | done (file : List Nat) (closedFile : Bool) (reqs : List Request)
  | netError (e : NetError) (file : List Nat) (closedFile : Bool) (reqs : List Request)
  | outOfFuel (file : List Nat) (reqs : List Request)
deriving DecidableEq, Repr

def DLResult.isDone : DLResult → Bool
  | .done .. => true
  | _ => false

def DLResult.isNetError : DLResult → Bool
  | .netError .. => true
  | _ => false

def DLResult.fileOf : DLResult → List Nat
  | .done f _ _ => f
  | .netError _ f _ _ => f
  | .outOfFuel f _ => f

def DLResult.reqsOf : DLResult → List Request
  | .done _ _ r => r
  | .netError _ _ _ r => r
  | .outOfFuel _ r => r

def DLResult.closedOf : DLResult → Bool
  | .done _ c _ => c
  | .netError _ _ c _ => c
  | .outOfFuel _ _ => false

/-- The `while outfile.tell() < filesize` loop of `Downloader.download`
(chanarch.py lines 490-521), fuelled.  Each iteration issues one ranged
GET from the current file offset (`outfile.tell()`), writes every byte
`resp.read` delivers, and then: a clean end of stream or a caught SSL read
timeout loops back to the size check; any other error propagates with the
file handle left open.  On normal loop exit the file is closed
(line 525). -/
def dlLoop (filesize : Nat) (path : String) (oc : Nat → Nat → GetOutcome) :
    Nat → Nat → List Nat → List Request → DLResult
  | 0, _, file, reqs =>
    if file.length < filesize then .outOfFuel file reqs else .done file true reqs
  | fuel + 1, attempt, file, reqs =>
    if file.length < filesize then
      let out := oc attempt file.length
      let reqs2 := reqs ++ [.get path file.length]
      let file2 := file ++ out.body
      match out.err with
      | none => dlLoop filesize path oc fuel (attempt + 1) file2 reqs2
      | some .sslReadTimeout => dlLoop filesize path oc fuel (attempt + 1) file2 reqs2
      | some .sslOther => .netError .sslOther file2 false reqs2
      | some .socketTimeout => .netError .socketTimeout file2 false reqs2
    else .done file true reqs

/-- `Downloader.download` (chanarch.py lines 442-525).  The local file is
opened in append mode (`initFile` are its current bytes), then a HEAD
request obtains `filesize = contentLength`.  If the file already has
exactly that many bytes the call RETURNS WITHOUT CLOSING the file handle
(lines 474-477) — note the HEAD request has already happened.  If the file
is larger, it is truncated to zero (lines 478-484) before the ranged GET
loop runs. -/
def download (contentLength : Nat) (path : String) (oc : Nat → Nat → GetOutcome)
    (initFile : List Nat) (fuel : Nat) : DLResult :=
  if initFile.length = contentLength then .done initFile false [.head path]
  else
    let file0 := if contentLength < initFile.length then [] else initFile
    dlLoop contentLength path oc fuel 0 file0 [.head path]

/-- A well-behaved server for remote content `content`: every ranged GET
from offset `ofs` answers 206 with the bytes from `ofs` on, and the stream
ends cleanly. -/
def wellBehaved (content : List Nat) : Nat → Nat → GetOutcome :=
  fun _ ofs => ⟨206, content.drop ofs, none⟩

/-- A server whose first GET delivers one byte and then times out at the
SSL layer (the caught, transient kind), and which behaves well from the
second attempt on; remote content `[10, 11, 12, 13, 14]`. -/
def ocRetry : Nat → Nat → GetOutcome :=
  fun attempt ofs =>
    if attempt = 0 then ⟨206, [12], some .sslReadTimeout⟩
    else ⟨206, [10, 11, 12, 13, 14].drop ofs, none⟩

end DownloaderModel

section ScrapeModel

/-- The whitespace characters stripped by Python's `str.rstrip()` (the
ASCII ones; none of them can occur in a scraped URL or in a line written
by `scrape_links`). -/
def isPySpace (c : Char) : Bool :=
  c == ' ' || c == '\t' || c == '\n' || c == '\r' || c == '\x0b' || c == '\x0c'

/-- `line.rstrip()` on the character list of a line. -/
def rstripL (l : List Char) : List Char :=
  (l.reverse.dropWhile isPySpace).reverse

/-- `line.rstrip()` (chanarch.py line 322). -/
def rstrip (s : String) : String :=
  (rstripL s.data).asString

/-- The character class of the URL regex of `scrape_links` (chanarch.py
line 337): `[A-Za-z0-9]` or one of the listed punctuation characters
(`'` is written via its code point 39). -/
def urlChar (c : Char) : Bool :=
  (decide ('A' ≤ c) && decide (c ≤ 'Z')) ||
  (decide ('a' ≤ c) && decide (c ≤ 'z')) ||
  (decide ('0' ≤ c) && decide (c ≤ '9')) ||
  c == '-' || c == '.' || c == '_' || c == '~' || c == ':' || c == '/' ||
  c == '?' || c == '#' || c == '[' || c == ']' || c == '@' || c == '!' ||
  c == '$' || c == '&' || c.val == 39 || c == '(' || c == ')' || c == '*' ||
  c == '+' || c == ',' || c == ';' || c == '='

/-- `[0-9a-fA-F]`: a hexadecimal digit. -/
def isHexDigitC (c : Char) : Bool :=
  c.isDigit || (decide ('a' ≤ c) && decide (c ≤ 'f')) || (decide ('A' ≤ c) && decide (c ≤ 'F'))

/-- The `%XX` percent-encoding alternative of the URL regex: succeed iff
the input starts with two hexadecimal digits. -/
def hexSplit : List Char → Option (Char × Char × List Char)
  | x :: y :: rest =>
    if isHexDigitC x && isHexDigitC y then some (x, y, rest) else none
  | _ => none

/-- Greedy `(?:[class]|%[0-9a-fA-F][0-9a-fA-F])+` body consumption of the
URL regex, fuelled (the fuel is always instantiated with the list length,
and each step consumes at least one character, so the fuel never runs
out).  Returns (consumed characters, rest). -/
def takeURLBodyF : Nat → List Char → List Char × List Char
  | 0, l => ([], l)
  | _ + 1, [] => ([], [])
  | fuel + 1, c :: cs =>
    if urlChar c then
      (c :: (takeURLBodyF fuel cs).1, (takeURLBodyF fuel cs).2)
    else if c == '%' then
      match hexSplit cs with
      | some (x, y, rest) =>
        (c :: x :: y :: (takeURLBodyF fuel rest).1, (takeURLBodyF fuel rest).2)
      | none => ([], c :: cs)
    else ([], c :: cs)

/-- The scheme alternation `(?:http[s]?|ftp)://` of the URL regex at a
fixed position.  The branches are mutually exclusive on their first
differing character, so trying them in the regex's greedy order is
deterministic. -/
def schemeSplit (cs : List Char) : Option (List Char × List Char) :=
  match dropLit "https://".data cs with
  | some r => some ("https://".data, r)
  | none =>
    match dropLit "http://".data cs with
    | some r => some ("http://".data, r)
    | none =>
      match dropLit "ftp://".data cs with
      | some r => some ("ftp://".data, r)
      | none => none

/-- One match attempt of the URL regex at a fixed position: scheme, then a
non-empty greedy body.  Returns (matched characters, rest of input). -/
def matchURLAt (cs : List Char) : Option (List Char × List Char) :=
  match schemeSplit cs with
  | none => none
  | some (sch, r) =>
    let p := takeURLBodyF r.length r
    if p.1.isEmpty then none else some (sch ++ p.1, p.2)

/-- `re.findall` of the URL regex: leftmost, non-overlapping matches,
scanning resumes after each match.  Fuelled by the input length (every
step consumes at least one character). -/
def findURLsF : Nat → List Char → List String
  | 0, _ => []
  | _ + 1, [] => []
  | fuel + 1, c :: cs =>
    match matchURLAt (c :: cs) with
    | some (m, rest) => m.asString :: findURLsF fuel rest
    | none => findURLsF fuel cs

/-- `re.findall(urlregex, com)` (chanarch.py line 347). -/
def findURLs (l : List Char) : List String :=
  findURLsF l.length l

/-- If a word-break tag (`<wbr>`, `<wbr/>` or `<wbr />`, exactly the
alternatives of `<wbr(?:[ ]?/)?>`) starts here, return the input after
it. -/
def stripWbrAt (cs : List Char) : Option (List Char) :=
  match dropLit "<wbr".data cs with
  | none => none
  | some r =>
    match r with
    | '>' :: r2 => some r2
    | '/' :: '>' :: r2 => some r2
    | ' ' :: '/' :: '>' :: r2 => some r2
    | _ => none

/-- `re.sub('<wbr(?:[ ]?/)?>', '', com)` (chanarch.py line 344), fuelled by
the input length (each step consumes at least one character). -/
def removeWbrF : Nat → List Char → List Char
  | 0, l => l
  | _ + 1, [] => []
  | fuel + 1, c :: cs =>
    match stripWbrAt (c :: cs) with
    | some rest => removeWbrF fuel rest
    | none => c :: removeWbrF fuel cs

/-- Word-break-tag removal applied to a comment body. -/
def removeWbr (l : List Char) : List Char :=
  removeWbrF l.length l

/-- The links scraped from one post (chanarch.py lines 339-348): `com` must
be present and truthy (non-empty), tags are stripped, then the URL regex is
run over the body. -/
def postLinks (p : Post) : List String :=
  match p.com with
  | some com => if com.data.isEmpty then [] else findURLs (removeWbr com.data)
  | none => []

/-- All links scraped from a post list, in post order. -/
def scrapedOf : List Post → List String
  | [] => []
  | p :: ps => postLinks p ++ scrapedOf ps

/-- Python `a < b` on strings restricted to `≤`: lexicographic comparison
by Unicode code point, shorter prefix first. -/
def lexLe : List Char → List Char → Bool
  | [], _ => true
  | _ :: _, [] => false
  | a :: as, b :: bs =>
    if a.toNat < b.toNat then true
    else if b.toNat < a.toNat then false
    else lexLe as bs

/-- `≤` on strings as Python's `list.sort()` orders them. -/
def strLe (a b : String) : Bool :=
  lexLe a.data b.data

/-- Insertion of one string into a sorted list. -/
def insertS (a : String) : List String → List String
  | [] => [a]
  | b :: bs => if strLe a b then a :: b :: bs else b :: insertS a bs

/-- `links.sort()` (chanarch.py line 355): any correct sort produces the
same list, namely the unique `lexLe`-sorted permutation; insertion sort is
used here. -/
def sortLinks : List String → List String
  | [] => []
  | a :: as => insertS a (sortLinks as)

/-- Reading the existing link file (chanarch.py lines 317-325): a missing
file yields no links, otherwise each line is `rstrip`ped. -/
def readLinks : Option (List String) → List String
  | none => []
  | some lines => lines.map rstrip

/-- `ChanThread.scrape_links` (chanarch.py lines 300-365) over an explicit
link-file content (`none` = file absent; `some lines` = its lines).  A dead
thread returns without touching the file.  Otherwise the existing lines are
read, the posts are scraped (raising `TypeError` if `threadinfo` is still
`None`), duplicates are removed via `set()`, and the sorted result is
written back, replacing the file. -/
def scrape_links (t : ThreadSt) (fc : Option (List String)) :
    Except PyError (Option (List String)) :=
  if t.thread_is_dead.getD false then .ok fc
  else
    let existing := readLinks fc
    match t.threadinfo with
    | none => .error .typeError
    | some info =>
      .ok (some (sortLinks ((existing ++ scrapedOf info.posts).dedup)))

end ScrapeModel

section DownloaderLemmas

theorem dlLoop_finished (filesize : Nat) (path : String) (oc : Nat → Nat → GetOutcome)
    (fuel attempt : Nat) (file : List Nat) (reqs : List Request)
    (h : ¬ file.length < filesize) :
    dlLoop filesize path oc fuel attempt file reqs = .done file true reqs := by
  cases fuel <;> simp [dlLoop, h]

/-- Behaviour of `download` against a well-behaved server, for any initial
local file: the three branches are the exact-size fast path (no GET, file
handle left open), the oversize-truncation path (single GET from offset 0,
final file is the remote content), and the resume path (single GET from
the current offset, remote tail appended). -/
theorem download_wb (content f0 : List Nat) (path : String) (fuel : Nat) :
    download content.length path (wellBehaved content) f0 (fuel + 1) =
      if f0.length = content.length then .done f0 false [.head path]
      else if content.length < f0.length then
        .done content true
          (.head path :: (if content.length = 0 then [] else [.get path 0]))
      else .done (f0 ++ content.drop f0.length) true
        [.head path, .get path f0.length] := by
  by_cases h1 : f0.length = content.length
  · simp [download, h1]
  · by_cases h2 : content.length < f0.length
    · simp only [download, h1, if_false, h2, if_true]
      by_cases h3 : content.length = 0
      · have hc : content = [] := List.length_eq_zero.mp h3
        subst hc
        rw [dlLoop_finished _ _ _ _ _ _ _ (by simp)]
        simp
      · have hpos : 0 < content.length := Nat.pos_of_ne_zero h3
        simp only [dlLoop, List.length_nil, hpos, if_true, wellBehaved,
          List.drop_zero, List.nil_append]
        rw [dlLoop_finished _ _ _ _ _ _ _ (by omega)]
        simp [h3]
    · have hlt : f0.length < content.length := by
        omega
      simp only [download, h1, if_false, h2, if_true]
      simp only [dlLoop, hlt, if_true, wellBehaved]
      rw [dlLoop_finished _ _ _ _ _ _ _
        (by simp only [List.length_append, List.length_drop]; omega)]
      simp

/-- The exact-size fast path of `download` (chanarch.py lines 473-477):
whatever the server behaviour, if the local file already has exactly
`contentLength` bytes, the call returns at once with the file unchanged,
the file handle NOT closed, and the HEAD probe as the only request. -/
theorem download_fast (contentLength : Nat) (path : String)
    (oc : Nat → Nat → GetOutcome) (f : List Nat) (fuel : Nat)
    (h : f.length = contentLength) :
    download contentLength path oc f fuel = .done f false [.head path] := by
  simp [download, h]

theorem dlLoop_no_surface {filesize : Nat} {path : String} {oc : Nat → Nat → GetOutcome}
    (h : ∀ k ofs, (oc k ofs).err = none ∨ (oc k ofs).err = some .sslReadTimeout) :
    ∀ (fuel attempt : Nat) (file : List Nat) (reqs : List Request),
      (dlLoop filesize path oc fuel attempt file reqs).isNetError = false := by
  intro fuel
  induction fuel with
  | zero =>
    intro attempt file reqs
    by_cases hf : file.length < filesize <;> simp [dlLoop, hf, DLResult.isNetError]
  | succ n ih =>
    intro attempt file reqs
    by_cases hf : file.length < filesize
    · simp only [dlLoop, hf, if_true]
      rcases h attempt file.length with herr | herr <;> rw [herr] <;> exact ih ..
    · simp [dlLoop, hf, DLResult.isNetError]

end DownloaderLemmas

/-- C1, counterexample: the claim says that when the expected size is known
and already met, `Download` returns success WITHOUT performing any network
call.  In chanarch.py the size is only ever known by asking the server: the
HEAD size probe (line 465) is issued before the completeness check, so even
a fully downloaded file costs one network request — the request trace of
this call is `[HEAD]`, not `[]`. -/
theorem C1_counterexample :
    download 3 "/g/1.png" (wellBehaved [1, 2, 3]) [1, 2, 3] 1 =
      .done [1, 2, 3] false [.head "/g/1.png"] ∧
    (download 3 "/g/1.png" (wellBehaved [1, 2, 3]) [1, 2, 3] 1).reqsOf ≠ [] := by
  constructor
  · rfl
  · decide

/-- C1, amended: when the local file already has exactly the
server-reported number of bytes, `download` returns success after the HEAD
size probe only — no ranged GET is issued, no body byte is transferred, and
the file is left byte-identical.  Consequently a second invocation right
after any completed first invocation (against a well-behaved server)
transfers zero body bytes and leaves the file unchanged. -/
theorem C1_amended :
    (∀ (contentLength : Nat) (path : String) (oc : Nat → Nat → GetOutcome)
        (f : List Nat) (fuel : Nat),
        f.length = contentLength →
        download contentLength path oc f fuel = .done f false [.head path])
    ∧ (∀ (content f0 f : List Nat) (path : String) (fuel fuel2 : Nat)
          (c : Bool) (r : List Request),
        download content.length path (wellBehaved content) f0 (fuel + 1) =
          .done f c r →
        download content.length path (wellBehaved content) f fuel2 =
          .done f false [.head path]) := by
  constructor
  · intro contentLength path oc f fuel h
    exact download_fast contentLength path oc f fuel h
  · intro content f0 f path fuel fuel2 c r h
    rw [download_wb] at h
    split_ifs at h with h1 h2 h3
    · injection h with hf hc hr
      subst hf
      exact download_fast _ path _ _ fuel2 h1
    · injection h with hf hc hr
      subst hf
      exact download_fast _ path _ _ fuel2 rfl
    · injection h with hf hc hr
      subst hf
      exact download_fast _ path _ _ fuel2 rfl
    · injection h with hf hc hr
      subst hf
      refine download_fast _ path _ _ fuel2 ?_
      simp only [List.length_append, List.length_drop]
      omega

/-- C1, witness for the amended theorem at a concrete input. -/
theorem C1_witness :
    download 3 "/g/1.png" (wellBehaved [7, 8, 9]) [7, 8, 9] 4 =
      .done [7, 8, 9] false [.head "/g/1.png"] :=
  C1_amended.1 3 "/g/1.png" (wellBehaved [7, 8, 9]) [7, 8, 9] 4 rfl

/-- C2, counterexample: the claim says EVERY transient read timeout during
streaming is retried and never surfaced.  chanarch.py only catches
`ssl.SSLError('The read operation timed out')` (lines 515-520); a read
timeout on a plain HTTP connection raises `socket.timeout`, which is not
caught and propagates to the caller. -/
theorem C2_counterexample :
    download 5 "/g/1.png" (fun _ _ => ⟨200, [], some .socketTimeout⟩) [] 1 =
      .netError .socketTimeout [] false [.head "/g/1.png", .get "/g/1.png" 0] := by
  rfl

/-- C2, amended: whenever every mid-stream failure is an SSL read timeout
(the only kind the code catches), no error surfaces to the caller; and the
retry re-requests from the current file offset — in the concrete run below
the first GET starts at offset 2, one byte arrives before the timeout, and
the retry's GET starts at offset 3 (the last confirmed written byte),
never at 0.  Plain-HTTP socket timeouts, by contrast, do surface
(`C2_counterexample`). -/
theorem C2_amended :
    (∀ (contentLength : Nat) (path : String) (oc : Nat → Nat → GetOutcome)
        (f0 : List Nat) (fuel : Nat),
        (∀ k ofs, (oc k ofs).err = none ∨ (oc k ofs).err = some .sslReadTimeout) →
        (download contentLength path oc f0 fuel).isNetError = false)
    ∧ download 5 "/g/1.png" ocRetry [10, 11] 5 =
        .done [10, 11, 12, 13, 14] true
          [.head "/g/1.png", .get "/g/1.png" 2, .get "/g/1.png" 3] := by
  constructor
  · intro contentLength path oc f0 fuel h
    by_cases hf : f0.length = contentLength
    · simp [download, hf, DLResult.isNetError]
    · simp only [download, hf, if_false]
      exact dlLoop_no_surface h ..
  · rfl

/-- C2, witness for the amended theorem's universally quantified part. -/
theorem C2_witness :
    (download 5 "/g/1.png" ocRetry [10, 11] 5).isNetError = false :=
  C2_amended.1 5 "/g/1.png" ocRetry [10, 11] 5 (by
    intro k ofs
    by_cases hk : k = 0 <;> simp [ocRetry, hk])

/-- C3 (code bug): chanarch.py never inspects the status of the ranged GET
response (lines 489-521), so a `416 Range Not Satisfiable` answer is NOT
treated as already-downloaded.  With an empty 416 body the loop makes no
progress and re-issues the request forever (first conjunct: no fuel ever
suffices, the run never reaches success); with a non-empty 416 body the
error page's bytes are appended to the local file and the call "succeeds"
with corrupted content (second conjunct). -/
theorem C3_theorem :
    (∀ fuel : Nat,
        (download 5 "/g/x.png" (fun _ _ => ⟨416, [], none⟩) [1, 2, 3] fuel).isDone
          = false)
    ∧ download 5 "/g/x.png" (fun _ _ => ⟨416, [9, 9], none⟩) [1, 2, 3] 1 =
        .done [1, 2, 3, 9, 9] true [.head "/g/x.png", .get "/g/x.png" 3] := by
  constructor
  · have key : ∀ (fuel attempt : Nat) (reqs : List Request),
        (dlLoop 5 "/g/x.png" (fun _ _ => ⟨416, [], none⟩) fuel attempt
          [1, 2, 3] reqs).isDone = false := by
      intro fuel
      induction fuel with
      | zero => intro attempt reqs; simp [dlLoop, DLResult.isDone]
      | succ n ih =>
        intro attempt reqs
        simp only [dlLoop, List.length_cons, List.length_nil]
        norm_num
        exact ih ..
    intro fuel
    simp only [download]
    norm_num
    exact key ..
  · rfl

/-- C4, confirmed: if the local file is larger than the server-reported
size, `download` truncates it to zero before the ranged GET phase — the
only GET in the trace starts at offset 0 — and against a well-behaved
server the final file is exactly the remote content (never the oversized
original with bytes appended). -/
theorem C4_theorem (content initFile : List Nat) (path : String)
    (h : content.length < initFile.length) :
    download content.length path (wellBehaved content) initFile 1 =
      .done content true
        (.head path :: (if content.length = 0 then [] else [.get path 0])) := by
  have h2 : initFile.length ≠ content.length := by omega
  have := download_wb content initFile path 0
  rw [this]
  simp [h2, h]

/-- C4, witness at a concrete input: a 3-byte local file against 2-byte
remote content is truncated and re-fetched from offset 0. -/
theorem C4_witness :
    download 2 "/g/2.png" (wellBehaved [5, 6]) [1, 2, 3] 1 =
      .done [5, 6] true [.head "/g/2.png", .get "/g/2.png" 0] := by
  have := C4_theorem [5, 6] [1, 2, 3] "/g/2.png" (by decide)
  simpa using this

/-- C9 (code bug): the claim (and spec step 11) says the local file handle
is closed on every exit path.  The already-complete early return
(chanarch.py line 477) returns without `outfile.close()`, and an
uncaught error propagates with the file open (there is no try/finally);
only the normal completion path closes it (line 525). -/
theorem C9_theorem :
    (download 3 "/g/1.png" (wellBehaved [1, 2, 3]) [1, 2, 3] 1).closedOf = false
    ∧ (download 5 "/g/1.png" (fun _ _ => ⟨200, [], some .socketTimeout⟩) [] 1).closedOf
        = false
    ∧ (download 2 "/g/1.png" (wellBehaved [7, 8]) [] 1).closedOf = true := by
  refine ⟨rfl, rfl, rfl⟩

section RunExamples

/-- An empty parsed thread. -/
def infoEmpty : ThreadInfo := ⟨[]⟩

/-- An alive, refreshed thread on board `g`, id `1`. -/
def tAlive1 : ThreadSt := ⟨"g", "1", true, "d", none, some infoEmpty⟩

/-- An alive, refreshed thread on board `g`, id `2`. -/
def tAlive2 : ThreadSt := ⟨"g", "2", true, "d", none, some infoEmpty⟩

/-- A freshly constructed thread: `update_info` has never run, so
`thread_is_dead` and `threadinfo` are both still `None`. -/
def tFresh : ThreadSt := ⟨"g", "3", true, "d", none, none⟩

end RunExamples

theorem postEvent_shape (t : ThreadSt) (p : Post) (e : DEvent)
    (h : postEvent t p = some e) : ∃ sp fp, e = .dl sp fp := by
  rcases hx : p.ext with _ | ext
  · simp [postEvent, hx] at h
  · simp only [postEvent, hx] at h
    split at h
    · exact absurd h (by simp)
    · injection h with he
      exact ⟨_, _, he.symm⟩

theorem countNew_filterMap (t : ThreadSt) :
    ∀ ps : List Post, countNew (ps.filterMap (postEvent t)) = 0 := by
  intro ps
  induction ps with
  | nil => rfl
  | cons p ps ih =>
    rw [List.filterMap_cons]
    rcases hp : postEvent t p with _ | e
    · exact ih
    · obtain ⟨sp, fp, he⟩ := postEvent_shape t p e hp
      subst he
      simpa [countNew, List.countP_cons] using ih

/-- C6, counterexample: the claim says exactly ONE downloader (and
connection) is created per destination host per run and shared across
threads.  `download_files` constructs a fresh `Downloader` on every call
(chanarch.py line 279) and closes it at the end of the thread (line 298):
a run over two alive threads, both targeting the constant media host
`i.4cdn.org`, constructs two downloaders. -/
theorem C6_counterexample :
    runThreads [tAlive1, tAlive2] =
      .ok [DEvent.newDownloader imgserver true, DEvent.closeConn,
           DEvent.newDownloader imgserver true, DEvent.closeConn]
    ∧ countNew [DEvent.newDownloader imgserver true, DEvent.closeConn,
           DEvent.newDownloader imgserver true, DEvent.closeConn] = 2 := by
  exact ⟨rfl, rfl⟩

/-- C6, amended: one `Downloader` is created per `download_files`
invocation, i.e. per thread: each alive refreshed thread's event trace is
exactly one downloader construction, then that thread's file downloads
over the same downloader, then one close — not one downloader per host
per run. -/
theorem C6_amended (t : ThreadSt) (info : ThreadInfo)
    (hd : t.thread_is_dead.getD false = false)
    (hi : t.threadinfo = some info) :
    download_files t =
      .ok (DEvent.newDownloader imgserver t.usehttps ::
        (info.posts.filterMap (postEvent t) ++ [DEvent.closeConn]))
    ∧ countNew (DEvent.newDownloader imgserver t.usehttps ::
        (info.posts.filterMap (postEvent t) ++ [DEvent.closeConn])) = 1 := by
  constructor
  · simp [download_files, hd, hi]
  · have h0 := countNew_filterMap t info.posts
    simp only [countNew, List.countP_cons, List.countP_append] at *
    simp [h0]

/-- C6, witness for the amended theorem at a concrete thread. -/
theorem C6_witness :
    download_files tAlive1 =
      .ok (DEvent.newDownloader imgserver tAlive1.usehttps ::
        (infoEmpty.posts.filterMap (postEvent tAlive1) ++ [DEvent.closeConn])) :=
  (C6_amended tAlive1 infoEmpty rfl rfl).1

/-- C7, counterexample: the claim says any unsuccessful non-404 response
makes `update_info` propagate a transport error rather than succeed or
silently parse the body.  chanarch.py never checks the status except for
404 (line 247): a 500 response whose body happens to be valid JSON is
parsed and stored, and the call returns normally. -/
theorem C7_counterexample :
    update_info tFresh ⟨500, .valid infoEmpty⟩ =
      .ok { tFresh with threadinfo := some infoEmpty } := by
  rfl

/-- C7, amended: on a 404, `update_info` sets the dead flag and returns
normally (posts untouched) — this half of the claim is right.  On ANY
other status the body is fed to `json.loads` regardless of success or
failure of the response: a JSON body is silently accepted as the thread
info, and a non-JSON body raises a JSON decode error, not a transport
error. -/
theorem C7_amended (t : ThreadSt) (resp : HTTPResp) :
    (resp.status = 404 →
      update_info t resp = .ok { t with thread_is_dead := some true })
    ∧ (∀ info, resp.status ≠ 404 → resp.body = .valid info →
      update_info t resp = .ok { t with threadinfo := some info })
    ∧ (resp.status ≠ 404 → resp.body = .invalid →
      update_info t resp = .error .jsonDecodeError) := by
  refine ⟨fun h => ?_, fun info h hb => ?_, fun h hb => ?_⟩
  · simp [update_info, h]
  · simp [update_info, h, hb]
  · simp [update_info, h, hb]

/-- C7, witness: the 404 branch of the amended theorem at a concrete
input. -/
theorem C7_witness :
    update_info tFresh ⟨404, .invalid⟩ =
      .ok { tFresh with thread_is_dead := some true } :=
  (C7_amended tFresh ⟨404, .invalid⟩).1 rfl

/-- C10, confirmed: a `ChanThread` on which `update_info` has never
completed (dead flag and `threadinfo` both still `None`) raises a
`TypeError` from subscripting `None` in both `download_files` and
`scrape_links` — neither is a no-op, neither fetches the metadata
itself. -/
theorem C10_theorem (t : ThreadSt) (fc : Option (List String))
    (hd : t.thread_is_dead = none) (hi : t.threadinfo = none) :
    download_files t = .error .typeError
    ∧ scrape_links t fc = .error .typeError := by
  constructor
  · simp [download_files, hd, hi]
  · simp [scrape_links, hd, hi]

/-- C10, witness at a freshly constructed thread. -/
theorem C10_witness :
    download_files tFresh = .error .typeError
    ∧ scrape_links tFresh none = .error .typeError :=
  C10_theorem tFresh none rfl rfl

section URLLemmas

theorem chDataAppend (a b : String) : (a ++ b).data = a.data ++ b.data := rfl

theorem chAsStringData (s : String) : s.data.asString = s := rfl

theorem dropLit_self : ∀ p r : List Char, dropLit p (p ++ r) = some r := by
  intro p
  induction p with
  | nil => intro r; rfl
  | cons a ps ih => intro r; simp [dropLit, ih]

theorem chTakeWhileApp (p : Char → Bool) :
    ∀ l r : List Char, (∀ c ∈ l, p c = true) →
      (l ++ r).takeWhile p = l ++ r.takeWhile p := by
  intro l
  induction l with
  | nil => intro r _; rfl
  | cons a as ih =>
    intro r h
    have ha : p a = true := h a (by simp)
    simp only [List.cons_append, List.takeWhile_cons, ha, if_true]
    rw [ih r (fun c hc => h c (by simp [hc]))]

theorem chDropWhileApp (p : Char → Bool) :
    ∀ l r : List Char, (∀ c ∈ l, p c = true) →
      (l ++ r).dropWhile p = r.dropWhile p := by
  intro l
  induction l with
  | nil => intro r _; rfl
  | cons a as ih =>
    intro r h
    have ha : p a = true := h a (by simp)
    simp only [List.cons_append, List.dropWhile_cons, ha, if_true]
    exact ih r (fun c hc => h c (by simp [hc]))

theorem chTakeWhileSelf (p : Char → Bool) :
    ∀ l : List Char, (∀ c ∈ l, p c = true) → l.takeWhile p = l := by
  intro l h
  have := chTakeWhileApp p l [] h
  simpa using this

theorem chMatchAtNil : matchAt [] = none := rfl

theorem chSearchSome (l : List Char) (r : Bool × String × String)
    (h : matchAt l = some r) : searchThread l = some r := by
  cases l with
  | nil => rw [chMatchAtNil] at h; cases h
  | cons c cs => simp [searchThread, h]

theorem chSearchNoneIff :
    ∀ l : List Char, searchThread l = none ↔ ∀ i, matchAt (l.drop i) = none := by
  intro l
  induction l with
  | nil => simp [searchThread, chMatchAtNil]
  | cons c cs ih =>
    constructor
    · intro h i
      have hm : matchAt (c :: cs) = none := by
        rcases hx : matchAt (c :: cs) with _ | r
        · rfl
        · rw [chSearchSome _ _ hx] at h; cases h
      cases i with
      | zero => simpa using hm
      | succ j =>
        have hs : searchThread cs = none := by
          simp only [searchThread, hm] at h
          exact h
        simpa using (ih.mp hs) j
    · intro h
      have h0 : matchAt (c :: cs) = none := by simpa using h 0
      have hs : searchThread cs = none :=
        ih.mpr (fun i => by simpa using h (i + 1))
      simp [searchThread, h0, hs]

/-- The board/thread-id tail of the regex match on a well-formed URL. -/
theorem chFinishMk (sec : Bool) (board tid : String)
    (hb : board.data ≠ []) (hbs : ∀ c ∈ board.data, (c != '/') = true)
    (ht : tid.data ≠ []) (htd : ∀ c ∈ tid.data, c.isDigit = true) :
    finishMatch sec (board.data ++ ("/thread/".data ++ tid.data)) =
      some (sec, board, tid) := by
  have htake := chTakeWhileApp (fun c => c != '/') board.data
    ("/thread/".data ++ tid.data) hbs
  have hdrop := chDropWhileApp (fun c => c != '/') board.data
    ("/thread/".data ++ tid.data) hbs
  have hhd : ("/thread/".data ++ tid.data).takeWhile (fun c => c != '/') = [] := by
    rfl
  have hhd2 : ("/thread/".data ++ tid.data).dropWhile (fun c => c != '/') =
      "/thread/".data ++ tid.data := by
    rfl
  simp only [finishMatch, htake, hhd, List.append_nil, hdrop, hhd2]
  have hbe : board.data.isEmpty = false := by
    cases hx : board.data with
    | nil => exact absurd hx hb
    | cons a as => rfl
  rw [hbe]
  simp only [Bool.false_eq_true, if_false, dropLit_self]
  have hdig : tid.data.takeWhile Char.isDigit = tid.data :=
    chTakeWhileSelf Char.isDigit tid.data htd
  rw [hdig]
  have hte : tid.data.isEmpty = false := by
    cases hx : tid.data with
    | nil => exact absurd hx ht
    | cons a as => rfl
  rw [hte]
  simp [chAsStringData]

theorem chMatchAtMk (sec : Bool) (board tid : String)
    (hb : board.data ≠ []) (hbs : ∀ c ∈ board.data, (c != '/') = true)
    (ht : tid.data ≠ []) (htd : ∀ c ∈ tid.data, c.isDigit = true) :
    matchAt ((mkThreadURL sec board tid).data) = some (sec, board, tid) := by
  cases sec with
  | true =>
    have hdata : (mkThreadURL true board tid).data =
        "https://boards.4chan.org/".data ++
          (board.data ++ ("/thread/".data ++ tid.data)) := by
      simp [mkThreadURL, chDataAppend, List.append_assoc]
    rw [hdata]
    simp only [matchAt, dropLit_self]
    exact chFinishMk true board tid hb hbs ht htd
  | false =>
    have hdata : (mkThreadURL false board tid).data =
        "http://boards.4chan.org/".data ++
          (board.data ++ ("/thread/".data ++ tid.data)) := by
      simp [mkThreadURL, chDataAppend, List.append_assoc]
    rw [hdata]
    have hfail : dropLit "https://boards.4chan.org/".data
        ("http://boards.4chan.org/".data ++
          (board.data ++ ("/thread/".data ++ tid.data))) = none := rfl
    simp only [matchAt, hfail, dropLit_self]
    exact chFinishMk false board tid hb hbs ht htd

end URLLemmas

/-- C5, counterexample: the claim says every string NOT matching the
thread-URL grammar makes construction raise `InvalidURLError`.  But
`parse_url` uses `re.search`, which matches the pattern ANYWHERE in the
string: `"bad url http://boards.4chan.org/g/thread/123"` does not match
the grammar (per the spec-faithful whole-string parser
`specThreadURLParse`) yet is accepted. -/
theorem C5_counterexample :
    specThreadURLParse "bad url http://boards.4chan.org/g/thread/123" = none
    ∧ parse_url "bad url http://boards.4chan.org/g/thread/123" =
        .ok (false, "g", "123") := by
  exact ⟨rfl, rfl⟩

/-- C5, amended: `parse_url` succeeds on every string CONTAINING a
substring matching `http(s?)://boards.4chan.org/<board>/thread/<digits>`
(first conjunct: a grammar-shaped URL parses to exactly its
`(https-flag, board, threadId)` triple, flag true iff the scheme is
https), and raises `InvalidURLError` — carrying the offending URL and the
expected-format description — exactly for strings in which the pattern
matches at no position (second conjunct). -/
theorem C5_amended :
    (∀ (sec : Bool) (board tid : String),
        board.data ≠ [] → (∀ c ∈ board.data, (c != '/') = true) →
        tid.data ≠ [] → (∀ c ∈ tid.data, c.isDigit = true) →
        parse_url (mkThreadURL sec board tid) = .ok (sec, board, tid))
    ∧ (∀ s : String,
        parse_url s = .error ⟨s, some "4chan thread URL"⟩ ↔
          ∀ i, matchAt (s.data.drop i) = none) := by
  constructor
  · intro sec board tid hb hbs ht htd
    have hm := chMatchAtMk sec board tid hb hbs ht htd
    have hs := chSearchSome _ _ hm
    simp [parse_url, hs]
  · intro s
    constructor
    · intro h
      refine (chSearchNoneIff s.data).mp ?_
      rcases hx : searchThread s.data with _ | r
      · rfl
      · simp [parse_url, hx] at h
    · intro h
      have hs : searchThread s.data = none := (chSearchNoneIff s.data).mpr h
      simp [parse_url, hs]

/-- C5, witness: the spec's own example URLs, through the amended
theorem. -/
theorem C5_witness :
    parse_url (mkThreadURL false "g" "12345") = .ok (false, "g", "12345") :=
  C5_amended.1 false "g" "12345" (by decide) (by decide) (by decide) (by decide)

section SortLemmas

theorem chCharEqOfToNat {a b : Char} (h : a.toNat = b.toNat) : a = b :=
  Char.ext (UInt32.toNat.inj h)

theorem lexLe_total : ∀ a b : List Char, lexLe a b = true ∨ lexLe b a = true := by
  intro a
  induction a with
  | nil => intro b; left; rfl
  | cons x xs ih =>
    intro b
    cases b with
    | nil => right; rfl
    | cons y ys =>
      by_cases hxy : x.toNat < y.toNat
      · left; simp [lexLe, hxy]
      · by_cases hyx : y.toNat < x.toNat
        · right; simp [lexLe, hyx]
        · rcases ih ys with h | h
          · left; simp [lexLe, hxy, hyx, h]
          · right; simp [lexLe, hxy, hyx, h]

theorem lexLe_antisymm : ∀ a b : List Char,
    lexLe a b = true → lexLe b a = true → a = b := by
  intro a
  induction a with
  | nil =>
    intro b _ h2
    cases b with
    | nil => rfl
    | cons y ys => simp [lexLe] at h2
  | cons x xs ih =>
    intro b h1 h2
    cases b with
    | nil => simp [lexLe] at h1
    | cons y ys =>
      by_cases hxy : x.toNat < y.toNat
      · simp [lexLe, hxy, Nat.lt_asymm hxy] at h2
      · by_cases hyx : y.toNat < x.toNat
        · simp [lexLe, hxy, hyx] at h1
        · have hx : x = y := chCharEqOfToNat (by omega)
          simp only [lexLe, hxy, if_false, hyx] at h1 h2
          rw [hx, ih ys h1 h2]

theorem lexLe_trans : ∀ a b c : List Char,
    lexLe a b = true → lexLe b c = true → lexLe a c = true := by
  intro a
  induction a with
  | nil => intro b c _ _; rfl
  | cons x xs ih =>
    intro b c h1 h2
    cases b with
    | nil => simp [lexLe] at h1
    | cons y ys =>
      cases c with
      | nil => simp [lexLe] at h2
      | cons z zs =>
        by_cases hxy : x.toNat < y.toNat <;> by_cases hyz : y.toNat < z.toNat
        · simp [lexLe, show x.toNat < z.toNat by omega]
        · by_cases hzy : z.toNat < y.toNat
          · simp [lexLe, hyz, hzy] at h2
          · have : y.toNat = z.toNat := by omega
            simp [lexLe, show x.toNat < z.toNat by omega]
        · by_cases hyx : y.toNat < x.toNat
          · simp [lexLe, hxy, hyx] at h1
          · have : x.toNat = y.toNat := by omega
            simp [lexLe, show x.toNat < z.toNat by omega]
        · by_cases hyx : y.toNat < x.toNat
          · simp [lexLe, hxy, hyx] at h1
          · by_cases hzy : z.toNat < y.toNat
            · simp [lexLe, hyz, hzy] at h2
            · have hxz1 : ¬ x.toNat < z.toNat := by omega
              have hxz2 : ¬ z.toNat < x.toNat := by omega
              simp only [lexLe, hxy, if_false, hyx] at h1
              simp only [lexLe, hyz, if_false, hzy] at h2
              simp only [lexLe, hxz1, if_false, hxz2]
              exact ih ys zs h1 h2

theorem strLe_total (a b : String) : strLe a b = true ∨ strLe b a = true :=
  lexLe_total a.data b.data

theorem chStrExt {a b : String} (h : a.data = b.data) : a = b := by
  cases a
  cases b
  exact congrArg String.mk h

theorem strLe_antisymm {a b : String}
    (h1 : strLe a b = true) (h2 : strLe b a = true) : a = b :=
  chStrExt (lexLe_antisymm a.data b.data h1 h2)

theorem strLe_trans {a b c : String}
    (h1 : strLe a b = true) (h2 : strLe b c = true) : strLe a c = true :=
  lexLe_trans a.data b.data c.data h1 h2

instance : IsAntisymm String (fun a b => strLe a b = true) :=
  ⟨fun _ _ h1 h2 => strLe_antisymm h1 h2⟩

theorem insertS_perm (a : String) :
    ∀ l : List String, List.Perm (insertS a l) (a :: l) := by
  intro l
  induction l with
  | nil => exact List.Perm.refl _
  | cons b bs ih =>
    by_cases hab : strLe a b = true
    · simp only [insertS, hab, if_true]
      exact List.Perm.refl _
    · simp only [insertS, hab, Bool.false_eq_true, if_false]
      exact List.Perm.trans (ih.cons b) (List.Perm.swap a b bs)

theorem insertS_mem {a x : String} {l : List String}
    (h : x ∈ insertS a l) : x = a ∨ x ∈ l := by
  have := (insertS_perm a l).mem_iff.mp h
  simpa using this

theorem insertS_sorted (a : String) :
    ∀ l : List String, List.Sorted (fun x y => strLe x y = true) l →
      List.Sorted (fun x y => strLe x y = true) (insertS a l) := by
  intro l
  induction l with
  | nil => intro _; simp [insertS, List.Sorted]
  | cons b bs ih =>
    intro h
    rw [List.sorted_cons] at h
    obtain ⟨hb, hbs⟩ := h
    by_cases hab : strLe a b = true
    · simp only [insertS, hab, if_true]
      rw [List.sorted_cons]
      refine ⟨?_, by rw [List.sorted_cons]; exact ⟨hb, hbs⟩⟩
      intro x hx
      rcases List.mem_cons.mp hx with hx | hx
      · subst hx; exact hab
      · exact strLe_trans hab (hb x hx)
    · simp only [insertS, hab, Bool.false_eq_true, if_false]
      rw [List.sorted_cons]
      refine ⟨?_, ih hbs⟩
      intro x hx
      rcases insertS_mem hx with hx | hx
      · rw [hx]
        rcases strLe_total a b with h | h
        · exact absurd h hab
        · exact h
      · exact hb x hx

theorem sortLinks_perm : ∀ l : List String, List.Perm (sortLinks l) l := by
  intro l
  induction l with
  | nil => exact List.Perm.refl _
  | cons a as ih =>
    exact List.Perm.trans (insertS_perm a (sortLinks as)) (ih.cons a)

theorem sortLinks_sorted : ∀ l : List String,
    List.Sorted (fun x y => strLe x y = true) (sortLinks l) := by
  intro l
  induction l with
  | nil => simp [sortLinks, List.Sorted]
  | cons a as ih => exact insertS_sorted a (sortLinks as) ih

theorem chSortedUnique (l m : List String)
    (hl : List.Sorted (fun x y => strLe x y = true) l)
    (hm : List.Sorted (fun x y => strLe x y = true) m)
    (hln : l.Nodup) (hmn : m.Nodup) (hmem : ∀ x, x ∈ l ↔ x ∈ m) : l = m := by
  have hfin : l.toFinset = m.toFinset := by
    ext x
    simp [List.mem_toFinset, hmem x]
  exact List.eq_of_perm_of_sorted
    (List.perm_of_nodup_nodup_toFinset_eq hln hmn hfin) hl hm

theorem chMapSelf {f : String → String} :
    ∀ l : List String, (∀ x ∈ l, f x = x) → l.map f = l := by
  intro l
  induction l with
  | nil => intro _; rfl
  | cons a as ih =>
    intro h
    simp only [List.map_cons, h a (by simp)]
    rw [ih (fun x hx => h x (by simp [hx]))]

end SortLemmas

section RstripLemmas

theorem chDropWhileIdem (p : Char → Bool) :
    ∀ l : List Char, (l.dropWhile p).dropWhile p = l.dropWhile p := by
  intro l
  induction l with
  | nil => rfl
  | cons a as ih =>
    by_cases hp : p a = true
    · simp only [List.dropWhile_cons, hp, if_true]
      exact ih
    · simp only [List.dropWhile_cons, hp, Bool.false_eq_true, if_false]

theorem rstripL_idem (l : List Char) : rstripL (rstripL l) = rstripL l := by
  simp only [rstripL, List.reverse_reverse]
  rw [chDropWhileIdem]

theorem chAsStringDataL (l : List Char) : l.asString.data = l := rfl

theorem rstrip_idem (s : String) : rstrip (rstrip s) = rstrip s := by
  simp only [rstrip, chAsStringDataL]
  rw [rstripL_idem]

theorem rstripL_no_trailing (l : List Char) (c : Char)
    (h : isPySpace c = false) : rstripL (l ++ [c]) = l ++ [c] := by
  simp only [rstripL, List.reverse_append, List.reverse_cons, List.reverse_nil,
    List.nil_append, List.singleton_append, List.dropWhile_cons, h,
    Bool.false_eq_true, if_false, List.reverse_cons, List.reverse_reverse]

end RstripLemmas

section URLClassLemmas

theorem chSpaceNotClass (c : Char)
    (h : urlChar c = true ∨ c = '%' ∨ isHexDigitC c = true) :
    isPySpace c = false := by
  cases hsp : isPySpace c
  · rfl
  · exfalso
    simp only [isPySpace, Bool.or_eq_true, beq_iff_eq] at hsp
    rcases hsp with ((((h6 | h6) | h6) | h6) | h6) | h6 <;> subst h6 <;>
      revert h <;> decide

theorem hexSplit_some : ∀ (l : List Char) (x y : Char) (rest : List Char),
    hexSplit l = some (x, y, rest) →
      isHexDigitC x = true ∧ isHexDigitC y = true ∧ l = x :: y :: rest := by
  intro l x y rest h
  match l with
  | [] => exact absurd h (by simp [hexSplit])
  | [a] => exact absurd h (by simp [hexSplit])
  | a :: b :: r =>
    rw [hexSplit] at h
    by_cases hab : (isHexDigitC a && isHexDigitC b) = true
    · rw [if_pos hab] at h
      injection h with h2
      have ha : a = x := congrArg Prod.fst h2
      have h3 : (b, r) = (y, rest) := congrArg Prod.snd h2
      have hb2 : b = y := congrArg Prod.fst h3
      have hr : r = rest := congrArg Prod.snd h3
      subst ha; subst hb2; subst hr
      simp only [Bool.and_eq_true] at hab
      exact ⟨hab.1, hab.2, rfl⟩
    · rw [if_neg hab] at h
      cases h

theorem chTakeBodyClass :
    ∀ (n : Nat) (l : List Char) (c : Char), c ∈ (takeURLBodyF n l).1 →
      urlChar c = true ∨ c = '%' ∨ isHexDigitC c = true := by
  intro n
  induction n with
  | zero =>
    intro l c hc
    rw [show takeURLBodyF 0 l = ([], l) from rfl] at hc
    simp at hc
  | succ m ih =>
    intro l c hc
    cases l with
    | nil =>
      rw [show takeURLBodyF (m + 1) ([] : List Char) = ([], []) from rfl] at hc
      simp at hc
    | cons a as =>
      rw [takeURLBodyF] at hc
      by_cases ha : urlChar a = true
      · rw [if_pos ha] at hc
        rcases List.mem_cons.mp hc with hc | hc
        · subst hc; exact Or.inl ha
        · exact ih as c hc
      · rw [if_neg ha] at hc
        by_cases hp : (a == '%') = true
        · rw [if_pos hp] at hc
          rcases hh : hexSplit as with _ | ⟨x, y, rest⟩
          · rw [hh] at hc
            have hc2 : c ∈ ([] : List Char) := hc
            simp at hc2
          · rw [hh] at hc
            obtain ⟨hx, hy, hl⟩ := hexSplit_some as x y rest hh
            have hc2 : c ∈ a :: x :: y :: (takeURLBodyF m rest).1 := hc
            have hpa : a = '%' := by simpa using hp
            rcases List.mem_cons.mp hc2 with hc3 | hc3
            · subst hc3; exact Or.inr (Or.inl hpa)
            · rcases List.mem_cons.mp hc3 with hc4 | hc4
              · subst hc4; exact Or.inr (Or.inr hx)
              · rcases List.mem_cons.mp hc4 with hc5 | hc5
                · subst hc5; exact Or.inr (Or.inr hy)
                · exact ih rest c hc5
        · rw [if_neg hp] at hc
          have hc2 : c ∈ ([] : List Char) := hc
          simp at hc2

end URLClassLemmas

section ScrapeLemmas

theorem chMatchURLAtShape (l : List Char) (m rest : List Char)
    (h : matchURLAt l = some (m, rest)) :
    ∃ sch body : List Char, m = sch ++ body ∧ body ≠ [] ∧
      ∀ c ∈ body, urlChar c = true ∨ c = '%' ∨ isHexDigitC c = true := by
  unfold matchURLAt at h
  rcases hs : schemeSplit l with _ | ⟨sch, r⟩
  · rw [hs] at h
    cases h
  · rw [hs] at h
    have h2 : (if (takeURLBodyF r.length r).1.isEmpty then none
        else some (sch ++ (takeURLBodyF r.length r).1, (takeURLBodyF r.length r).2))
        = some (m, rest) := h
    by_cases he : (takeURLBodyF r.length r).1.isEmpty = true
    · rw [if_pos he] at h2
      cases h2
    · rw [if_neg he] at h2
      injection h2 with h3
      have hm : sch ++ (takeURLBodyF r.length r).1 = m := congrArg Prod.fst h3
      refine ⟨sch, (takeURLBodyF r.length r).1, hm.symm, ?_, ?_⟩
      · intro hb
        exact he (by rw [hb]; rfl)
      · intro c hc
        exact chTakeBodyClass r.length r c hc

theorem chFindRstrip :
    ∀ (n : Nat) (l : List Char) (u : String), u ∈ findURLsF n l → rstrip u = u := by
  intro n
  induction n with
  | zero =>
    intro l u hu
    rw [show findURLsF 0 l = [] from rfl] at hu
    simp at hu
  | succ fm ih =>
    intro l u hu
    cases l with
    | nil =>
      rw [show findURLsF (fm + 1) ([] : List Char) = [] from rfl] at hu
      simp at hu
    | cons c cs =>
      rw [findURLsF] at hu
      rcases hm : matchURLAt (c :: cs) with _ | ⟨m2, rest⟩
      · rw [hm] at hu
        exact ih cs u hu
      · rw [hm] at hu
        rcases List.mem_cons.mp hu with hu2 | hu2
        · subst hu2
          obtain ⟨sch, body, hm2, hbne, hclass⟩ :=
            chMatchURLAtShape (c :: cs) m2 rest hm
          rcases List.eq_nil_or_concat body with hb | ⟨L, d, hb⟩
          · exact absurd hb hbne
          · rw [List.concat_eq_append] at hb
            have hd : isPySpace d = false :=
              chSpaceNotClass d (hclass d (by simp [hb]))
            have hm3 : m2 = (sch ++ L) ++ [d] := by
              rw [hm2, hb, List.append_assoc]
            simp only [rstrip, chAsStringDataL]
            rw [hm3, rstripL_no_trailing _ d hd]
        · exact ih rest u hu2

theorem chScrapedRstrip :
    ∀ (ps : List Post) (u : String), u ∈ scrapedOf ps → rstrip u = u := by
  intro ps
  induction ps with
  | nil =>
    intro u hu
    simp [scrapedOf] at hu
  | cons p ps ih =>
    intro u hu
    rcases List.mem_append.mp hu with hu2 | hu2
    · rcases hcom : p.com with _ | com
      · simp [postLinks, hcom] at hu2
      · simp only [postLinks, hcom] at hu2
        by_cases hce : com.data.isEmpty = true
        · rw [if_pos hce] at hu2
          simp at hu2
        · rw [if_neg hce] at hu2
          exact chFindRstrip _ _ u hu2
    · exact ih u hu2

/-- Unfolding of `scrape_links` on an alive, refreshed thread. -/
theorem chScrapeEq (t : ThreadSt) (info : ThreadInfo) (fc : Option (List String))
    (hd : t.thread_is_dead.getD false = false) (hi : t.threadinfo = some info) :
    scrape_links t fc =
      .ok (some (sortLinks ((readLinks fc ++ scrapedOf info.posts).dedup))) := by
  simp [scrape_links, hd, hi]

end ScrapeLemmas

/-- A thread whose two posts contain the same URL, the second one split in
the middle by a `<wbr>` word-break tag. -/
def infoWbr : ThreadInfo :=
  ⟨[⟨some 1, none, none, some "http://x.com/ab"⟩,
    ⟨some 2, none, none, some "http://x.co<wbr>m/ab"⟩]⟩

/-- An alive thread carrying `infoWbr`. -/
def tWbr : ThreadSt := ⟨"g", "9", true, "d", none, some infoWbr⟩

/-- C8, confirmed: on an alive refreshed thread, `scrape_links` writes the
union of the (rstripped) pre-existing lines and the newly scraped URLs,
lexicographically sorted with no duplicate lines, and is idempotent:
re-running it on its own output file reproduces that file exactly.  The
closing conjunct: a URL appearing twice in the posts, once split by inline
`<wbr>` markup, yields exactly one output line. -/
theorem C8_theorem :
    (∀ (t : ThreadSt) (info : ThreadInfo) (fc : Option (List String))
        (L1 : List String),
        t.thread_is_dead.getD false = false → t.threadinfo = some info →
        scrape_links t fc = .ok (some L1) →
        scrape_links t (some L1) = .ok (some L1)
        ∧ List.Sorted (fun a b => strLe a b = true) L1
        ∧ L1.Nodup
        ∧ (∀ u, u ∈ L1 ↔ u ∈ readLinks fc ++ scrapedOf info.posts))
    ∧ scrape_links tWbr none = .ok (some ["http://x.com/ab"]) := by
  constructor
  · intro t info fc L1 hd hi h1
    rw [chScrapeEq t info fc hd hi] at h1
    injection h1 with h1a
    injection h1a with h1b
    subst h1b
    have hperm := sortLinks_perm ((readLinks fc ++ scrapedOf info.posts).dedup)
    have hsorted := sortLinks_sorted ((readLinks fc ++ scrapedOf info.posts).dedup)
    have hnodup : (sortLinks ((readLinks fc ++ scrapedOf info.posts).dedup)).Nodup :=
      hperm.symm.nodup (List.nodup_dedup _)
    have hmem : ∀ u, u ∈ sortLinks ((readLinks fc ++ scrapedOf info.posts).dedup) ↔
        u ∈ readLinks fc ++ scrapedOf info.posts := by
      intro u
      rw [hperm.mem_iff, List.mem_dedup]
    refine ⟨?_, hsorted, hnodup, hmem⟩
    rw [chScrapeEq t info _ hd hi]
    have hmap : readLinks (some (sortLinks ((readLinks fc ++ scrapedOf info.posts).dedup)))
        = sortLinks ((readLinks fc ++ scrapedOf info.posts).dedup) := by
      show (sortLinks ((readLinks fc ++ scrapedOf info.posts).dedup)).map rstrip = _
      apply chMapSelf
      intro x hx
      rcases List.mem_append.mp ((hmem x).mp hx) with hx2 | hx2
      · cases fc with
        | none => simp [readLinks] at hx2
        | some lines =>
          simp only [readLinks] at hx2
          obtain ⟨v, hv, hveq⟩ := List.mem_map.mp hx2
          rw [← hveq]
          exact rstrip_idem v
      · exact chScrapedRstrip info.posts x hx2
    rw [hmap]
    have key : sortLinks (((sortLinks ((readLinks fc ++ scrapedOf info.posts).dedup))
          ++ scrapedOf info.posts).dedup)
        = sortLinks ((readLinks fc ++ scrapedOf info.posts).dedup) := by
      apply chSortedUnique
      · exact sortLinks_sorted _
      · exact hsorted
      · exact (sortLinks_perm _).symm.nodup (List.nodup_dedup _)
      · exact hnodup
      · intro x
        rw [(sortLinks_perm _).mem_iff, List.mem_dedup, List.mem_append]
        constructor
        · rintro (hx | hx)
          · exact hx
          · exact (hmem x).mpr (List.mem_append.mpr (Or.inr hx))
        · intro hx
          exact Or.inl hx
    rw [key]
  · rfl

/-- C8, witness: re-running `scrape_links` on the link file produced by
the `tWbr` run reproduces that file. -/
theorem C8_witness :
    scrape_links tWbr (some ["http://x.com/ab"]) = .ok (some ["http://x.com/ab"]) :=
  (C8_theorem.1 tWbr infoWbr none ["http://x.com/ab"] rfl rfl C8_theorem.2).1
